import Mathlib

/-!
Verification of the asnet reactor library (length-prefixed TCP framing,
per-connection I/O automata, slot-table host reactor).

The development shallowly embeds `src/peer.rs` and `src/host.rs`:

* bytes are `Nat` values below 256; Rust `u32` casts are modelled with
  explicit `% 2 ^ 32` arithmetic;
* the non-blocking transport is modelled by oracles: a list of successive
  `read`/`write` call results consumed by the I/O loops;
* the slab-backed peer table is a `List (Option Shared)` indexed by slot id.
-/

namespace Asnet

/-- A packet payload: a list of byte values. -/
abbrev Packet := List Nat

/-- The error kinds distinguished by the code (`std::io::ErrorKind` values
that appear in `peer.rs` and `host.rs`), plus `Other` standing for every
kind the code does not name. -/
inductive IOErrorKind
  | WouldBlock
  | InvalidData
  | ConnectionRefused
  | ConnectionReset
  | ConnectionAborted
  | BrokenPipe
  | NotFound
  | Other
deriving DecidableEq, Repr

/-- `u32::from_be_bytes([a, b, c, d])` from `Shared::readable`. -/
def fromBe32 (a b c d : Nat) : Nat :=
  ((a * 256 + b) * 256 + c) * 256 + d

/-- `(len as u32).to_be_bytes()` from `Shared::writable`: big-endian bytes of
`len % 2^32` (the `as u32` cast truncates). -/
def toBe32 (n : Nat) : List Nat :=
  [n / 16777216 % 256, n / 65536 % 256, n / 256 % 256, n % 256]

/-- The read-automaton state (`enum ReadState` in `peer.rs`): zero to three
collected header bytes, or a partially collected payload with its target
size. `None` (initial) is represented as `Option ReadState`. -/
inductive ReadState
  | Size1 (a : Nat)
  | Size2 (a b : Nat)
  | Size3 (a b c : Nat)
  | Packet (buf : List Nat) (size : Nat)
deriving DecidableEq, Repr

/-- One byte step of the read automaton: the `match self.read_state.take()`
in `Shared::readable`. Returns the new state and an emitted packet when a
payload completes; a zero length header is `ErrorKind::InvalidData`. -/
def readStep (st : Option ReadState) (e : Nat) :
    Except IOErrorKind (Option ReadState × Option Packet) :=
  match st with
  | some (.Size1 a) => .ok (some (.Size2 a e), none)
  | some (.Size2 a b) => .ok (some (.Size3 a b e), none)
  | some (.Size3 a b c) =>
      if fromBe32 a b c e = 0 then .error .InvalidData
      else .ok (some (.Packet [] (fromBe32 a b c e)), none)
  | some (.Packet buf size) =>
      if (buf ++ [e]).length = size then .ok (none, some (buf ++ [e]))
      else .ok (some (.Packet (buf ++ [e]) size), none)
  | none => .ok (some (.Size1 e), none)

/-- The `for e in buffer[0..n]` loop of `Shared::readable`: feed one chunk of
bytes through the automaton, appending completed packets to the inbound
queue. On an error the packets completed so far stay queued (the Rust code
pushed them into `self.incoming_packets` before returning `Err`), and the
state is `none` (it was `take`n and never reassigned). -/
def feedChunkIncoming : Option ReadState → List Nat → List Packet →
    Option ReadState × List Packet × Option IOErrorKind
  | st, [], inbox => (st, inbox, none)
  | st, e :: rest, inbox =>
      match readStep st e with
      | .error k => (none, inbox, some k)
      | .ok (st2, some p) => feedChunkIncoming st2 rest (inbox ++ [p])
      | .ok (st2, none) => feedChunkIncoming st2 rest inbox

/-- Feed a sequence of chunks (successive successful nonblocking reads, of
arbitrary sizes) through the read automaton, stopping at the first error. -/
def feedChunks : Option ReadState → List (List Nat) → List Packet →
    Option ReadState × List Packet × Option IOErrorKind
  | st, [], inbox => (st, inbox, none)
  | st, c :: cs, inbox =>
      match feedChunkIncoming st c inbox with
      | (st2, inbox2, none) => feedChunks st2 cs inbox2
      | r => r

/-- The frame built by `Shared::writable` for one queued payload: the
`data.insert(i, b)` loop prepends `(data.len() as u32).to_be_bytes()`. -/
def encodePacket (p : Packet) : List Nat :=
  toBe32 (p.length % 2 ^ 32) ++ p

/-- The write-automaton in-progress frame (`struct WriteState` in
`peer.rs`): the full frame bytes and the count of bytes already written. -/
structure WriteState where
  data : List Nat
  done : Nat
deriving DecidableEq, Repr

/-- `enum ConnectionState` from `peer.rs`. -/
inductive ConnectionState
  | Waiting
  | Connected
  | Disconnected
deriving DecidableEq, Repr

/-- One result of a nonblocking `stream.read` call: `Ok(n)` delivering a
chunk of `n` bytes (`ok []` is `Ok(0)`, the remote-closed case), or an
error of some kind (`Err` with `ErrorKind::WouldBlock` is flow control). -/
inductive ReadOutcome
  | ok (chunk : List Nat)
  | err (k : IOErrorKind)
deriving DecidableEq, Repr

/-- One result of a nonblocking `stream.write` call: `Ok(n)` (the transport
accepted `n` bytes of the offered slice) or an error. -/
inductive WriteOutcome
  | ok (n : Nat)
  | err (k : IOErrorKind)
deriving DecidableEq, Repr

/-- The per-connection state `struct Shared` of `peer.rs` (the generic user
`data` slot and the remote `addr` are omitted: no claim mentions them).
`connected` models the `host.rs` revision's `socket: Option<TcpStream>`
being `Some` (a failed-outbound placeholder has no socket); `rInput` and
`wInput` are the transport oracles: the successive results the stream's
nonblocking `read`/`write` calls will produce. -/
structure Shared where
  connected : Bool
  incoming : List Packet
  outgoing : List Packet
  readyR : Bool
  readyW : Bool
  readState : Option ReadState
  writeState : Option WriteState
  lastActivity : Nat
  connectionState : ConnectionState
  rInput : List ReadOutcome
  wInput : List WriteOutcome
deriving DecidableEq, Repr

/-- The `if processed != 0 { self.last_activity = Instant::now(); }` epilogue
shared by `Shared::readable` and `Shared::writable`. -/
def refreshActivity (s : Shared) (now processed : Nat) : Shared :=
  if processed ≠ 0 then { s with lastActivity := now } else s

/-- The `loop` of `Shared::readable`, consuming one `stream.read` outcome
per iteration. `Ok(0)` and oracle exhaustion end the loop keeping the
readable bit; `WouldBlock` clears the readable bit and ends the loop; any
other error returns it; a successful chunk runs the byte automaton
(`feedChunkIncoming`) and continues. -/
def readableGo : List ReadOutcome → Shared → Nat → Shared × Nat × Option IOErrorKind
  | [], s, processed => (s, processed, none)
  | .ok [] :: rest, s, processed => ({ s with rInput := rest }, processed, none)
  | .ok chunk :: rest, s, processed =>
      match feedChunkIncoming s.readState chunk s.incoming with
      | (st2, inbox2, some k) =>
          ({ s with rInput := rest, readState := st2, incoming := inbox2 }, processed, some k)
      | (st2, inbox2, none) =>
          readableGo rest { s with rInput := rest, readState := st2, incoming := inbox2 }
            (processed + chunk.length)
  | .err k :: rest, s, processed =>
      if k = .WouldBlock then ({ s with rInput := rest, readyR := false }, processed, none)
      else ({ s with rInput := rest }, processed, some k)

/-- `Shared::readable`: drain the readable socket through the read
automaton. On a normal exit, `last_activity` is refreshed when any bytes
were processed; on an error the `return Err` skips that refresh. -/
def Shared.readable (s : Shared) (now : Nat) : Shared × Option IOErrorKind :=
  match readableGo s.rInput s 0 with
  | (s1, processed, none) => (refreshActivity s1 now processed, none)
  | (s1, _, some k) => (s1, some k)

/-- The frame the `Shared::writable` loop writes next: the `take`n
`write_state` if it holds an unfinished frame, otherwise the next queued
payload with the 4-byte length header prepended and offset 0; `none` means
the loop breaks (no frame and empty queue). -/
def frameSource (ws : Option WriteState) (outgoing : List Packet) :
    Option (WriteState × List Packet) :=
  match ws with
  | some w =>
      if w.done = w.data.length then
        match outgoing with
        | [] => none
        | p :: rest => some (⟨encodePacket p, 0⟩, rest)
      else some (w, outgoing)
  | none =>
      match outgoing with
      | [] => none
      | p :: rest => some (⟨encodePacket p, 0⟩, rest)

/-- The `loop` of `Shared::writable`, consuming one `stream.write` outcome
per frame-write attempt. Note the faithful modelling of the source: the
local `write_state` (`_frame` here, whose pending bytes
`_frame.data.drop _frame.done` are what the transport is offered) is taken
out of `self.write_state` and is never stored back, and `done` is never
advanced by `Ok(n)` — every branch leaves `writeState := none`. -/
def writableGo : List WriteOutcome → Shared → Nat → Shared × Nat × Option IOErrorKind
  | win, s, processed =>
      match frameSource s.writeState s.outgoing with
      | none => ({ s with writeState := none }, processed, none)
      | some (_frame, restQ) =>
          match win with
          | [] =>
              ({ s with writeState := none, outgoing := restQ }, processed, none)
          | .ok 0 :: rest =>
              ({ s with writeState := none, outgoing := restQ, wInput := rest }, processed, none)
          | .ok n :: rest =>
              writableGo rest { s with writeState := none, outgoing := restQ, wInput := rest }
                (processed + n)
          | .err k :: rest =>
              if k = .WouldBlock then
                let s1 := { s with writeState := none, outgoing := restQ, wInput := rest }
                ({ s1 with readyW := false }, processed, none)
              else
                ({ s with writeState := none, outgoing := restQ, wInput := rest }, processed, some k)

/-- `Shared::writable`: push queued frames to the socket. Same
`last_activity` epilogue as `Shared::readable`. -/
def Shared.writable (s : Shared) (now : Nat) : Shared × Option IOErrorKind :=
  match writableGo s.wInput s 0 with
  | (s1, processed, none) => (refreshActivity s1 now processed, none)
  | (s1, _, some k) => (s1, some k)

/-- `Shared::update` (called `peer.process()` by `host.rs`): attempt reads
when the readable bit is set, then writes when the writable bit is set,
propagating the first error. Modelled from the spec for the placeholder
case: the `host.rs` revision's `Peer` holds `socket: Option<TcpStream>`
and a failed-outbound placeholder has no socket, so no transport call
occurs for it (spec §4.2: `connected()` is false for it). -/
def Shared.update (s : Shared) (now : Nat) : Shared × Option IOErrorKind :=
  if s.connected = false then (s, none)
  else if s.readyR then
    match Shared.readable s now with
    | (s1, some k) => (s1, some k)
    | (s1, none) =>
        if s1.readyW then Shared.writable s1 now else (s1, none)
  else if s.readyW then Shared.writable s now else (s, none)

/-- `Peer::send` from `peer.rs` (lines 70–75): unconditionally appends the
packet to `outgoing_packets`, with no check of the connection state. -/
def Shared.send (s : Shared) (packet : Packet) : Shared :=
  { s with outgoing := s.outgoing ++ [packet] }

/-- `Peer::new`: fresh queues, empty readiness, no automaton state,
`last_activity = Instant::now()`. The `connected` flag models whether a
socket is attached (`host.rs` passes `Option<TcpStream>`). -/
def Peer.new (connected : Bool) (cstate : ConnectionState) (now : Nat) : Shared :=
  { connected := connected
    incoming := []
    outgoing := []
    readyR := false
    readyW := false
    readState := none
    writeState := none
    lastActivity := now
    connectionState := cstate
    rInput := []
    wInput := [] }

/-- A connected peer with no pending I/O, used by concrete scenarios. -/
def basePeer : Shared := Peer.new true .Connected 0

/-- A peer whose socket will accept only 3 bytes of the next write. -/
def shortWritePeer : Shared :=
  { basePeer with readyW := true, outgoing := [[65]], wInput := [.ok 3] }

/-- A peer whose socket signals `WouldBlock` on the next write. -/
def blockedWritePeer : Shared :=
  { basePeer with readyW := true, outgoing := [[65]], wInput := [.err .WouldBlock] }

/-- A peer whose connection is gone (state `Disconnected`). -/
def disconnectedPeer : Shared :=
  { Peer.new false .Disconnected 0 with }

/-- `enum EventKind` from `event.rs`. -/
inductive EventKind
  | Connect
  | Disconnect
  | Receive (packet : Packet)
deriving DecidableEq, Repr

/-- `struct HostEvent` from `host.rs`: an event kind bound to a slot id. -/
structure HostEvent where
  kind : EventKind
  peer : Nat
deriving DecidableEq, Repr

/-- The peer table lookup `self.peers.get(idx)`: the slab is modelled as a
list of optional slots indexed by slot id. -/
def getSlot (peers : List (Option Shared)) (i : Nat) : Option Shared :=
  (peers.getD i none)

/-- Store a value at slot `i`, growing the table as the slab does when the
index is fresh. -/
def setSlot : List (Option Shared) → Nat → Option Shared → List (Option Shared)
  | [], 0, v => [v]
  | [], n + 1, v => none :: setSlot [] n v
  | _ :: rest, 0, v => v :: rest
  | o :: rest, n + 1, v => o :: setSlot rest n v

/-- Modelled from the spec: the slab crate's `vacant_entry().key()` is
external code; the spec only requires that allocation picks a currently
free slot of the slot table. We model it as the least vacant index. -/
def vacantIdx : List (Option Shared) → Nat
  | [] => 0
  | none :: _ => 0
  | some _ :: rest => vacantIdx rest + 1

/-- The recoverable error kinds of `Host::process_internal` (lines
130–144): `InvalidData`, `ConnectionRefused`, `ConnectionReset`,
`ConnectionAborted`, `BrokenPipe` turn into a Disconnect event; everything
else is fatal. -/
def recoverable : IOErrorKind → Bool
  | .InvalidData => true
  | .ConnectionRefused => true
  | .ConnectionReset => true
  | .ConnectionAborted => true
  | .BrokenPipe => true
  | _ => false

/-- The outcome of the peer scan of `Host::process_internal`: the updated
peer table, the events pushed onto `self.events` (in push order), and the
fatal error that aborted the scan, if any. -/
structure ScanResult where
  peers : List (Option Shared)
  events : List HostEvent
  fatal : Option IOErrorKind
deriving DecidableEq, Repr

/-- The peer scan loop of `Host::process_internal` (lines 119–152), over
the slots from index `idx` on. For each occupied slot: if
`now - last_activity >= timeout`, push Disconnect and `continue` (no I/O,
packets not drained); otherwise run `peer.process()` (`Shared.update`) —
a recoverable error pushes Disconnect and falls through to the
`incoming_packets()` drain (so pending Receive events are pushed *after*
that Disconnect), a fatal error aborts the scan immediately, leaving later
slots unprocessed and the failing peer's packets undrained. -/
def scanGo (t now : Nat) : Nat → List (Option Shared) → ScanResult
  | _, [] => ⟨[], [], none⟩
  | idx, none :: rest =>
      let r := scanGo t now (idx + 1) rest
      ⟨none :: r.peers, r.events, r.fatal⟩
  | idx, some peer :: rest =>
      if t ≤ now - peer.lastActivity then
        let r := scanGo t now (idx + 1) rest
        ⟨some peer :: r.peers, ⟨.Disconnect, idx⟩ :: r.events, r.fatal⟩
      else
        match Shared.update peer now with
        | (p1, some k) =>
            if recoverable k then
              let r := scanGo t now (idx + 1) rest
              ⟨some { p1 with incoming := [] } :: r.peers,
                ⟨.Disconnect, idx⟩ ::
                  (p1.incoming.map fun pk => (⟨.Receive pk, idx⟩ : HostEvent)) ++ r.events,
                r.fatal⟩
            else
              ⟨some p1 :: rest, [], some k⟩
        | (p1, none) =>
            let r := scanGo t now (idx + 1) rest
            ⟨some { p1 with incoming := [] } :: r.peers,
              (p1.incoming.map fun pk => (⟨.Receive pk, idx⟩ : HostEvent)) ++ r.events,
              r.fatal⟩

/-- `struct Host` from `host.rs`, restricted to the reactor state the
claims are about: the pending-event queue, the slab of peers, the deferred
removal slot and the inactivity timeout. The listener, poller and
`poll_events` buffer are external collaborators, modelled by the
notification lists fed to the poll phase. -/
structure HostState where
  events : List HostEvent
  peers : List (Option Shared)
  remove : Option Nat
  timeout : Nat
deriving DecidableEq, Repr

/-- `Host::pop_event` (lines 194–208): first execute the deferred removal
(`self.peers.remove`), then pop the queue head; a popped Disconnect marks
its slot for removal at the start of the *next* call. -/
def pop_event (st : HostState) : Option HostEvent × HostState :=
  let st1 :=
    match st.remove with
    | some r => { st with peers := setSlot st.peers r none, remove := none }
    | none => st
  match st1.events with
  | [] => (none, st1)
  | e :: rest =>
      let rm := if e.kind = .Disconnect then some e.peer else st1.remove
      (some e, { st1 with events := rest, remove := rm })

/-- Slot allocation shared by `Host::connect` and the accept path of
`Host::process_internal`: take the vacant entry, push Connect (plus an
immediate Disconnect for a refused outbound attempt), insert the peer.
Poller registration is modelled as succeeding. Returns the new slot id. -/
def allocPeer (st : HostState) (peer : Shared) (alsoDisconnect : Bool) :
    HostState × Nat :=
  let idx := vacantIdx st.peers
  let evs :=
    st.events ++ [(⟨.Connect, idx⟩ : HostEvent)] ++
      (if alsoDisconnect then [(⟨.Disconnect, idx⟩ : HostEvent)] else [])
  ({ st with peers := setSlot st.peers idx (some peer), events := evs }, idx)

/-- `Host::connect` (lines 59–99): `streamErr` is the outcome of the
nonblocking `TcpStream::connect` attempt. A `ConnectionRefused` failure
still allocates a slot — with no socket — and enqueues Connect then
Disconnect; any other failure is returned to the caller; success allocates
a connected peer and enqueues Connect only. -/
def connectM (st : HostState) (streamErr : Option IOErrorKind) (now : Nat) :
    Except IOErrorKind (HostState × Nat) :=
  match streamErr with
  | some k =>
      if k = .ConnectionRefused then .ok (allocPeer st (Peer.new false .Waiting now) true)
      else .error k
  | none => .ok (allocPeer st (Peer.new true .Waiting now) false)

/-- One `listener.accept()` result for the accept path. -/
inductive AcceptOutcome
  | conn
  | acceptErr (k : IOErrorKind)
deriving DecidableEq, Repr

/-- One readiness notification produced by `poll.poll`: `Token(0)` is the
listener, `Token(idx + 1)` a peer slot with the reported readable/writable
bits. -/
inductive PollEvent
  | listener (a : AcceptOutcome)
  | peerTok (tok : Nat) (r w : Bool)
deriving DecidableEq, Repr

/-- The notification loop of `Host::process_internal` (lines 155–189): a
listener notification performs one `accept` (`WouldBlock` is skipped, any
other accept error is fatal, a connection allocates a slot and pushes
Connect); a peer-token notification merges the reported readiness bits
into the slot (`Peer::ready` does `self.ready.insert`), silently ignored
when the slot is already free. -/
def pollPhase (now : Nat) : HostState → List PollEvent → HostState × Option IOErrorKind
  | st, [] => (st, none)
  | st, .listener .conn :: rest =>
      pollPhase now (allocPeer st (Peer.new true .Connected now) false).1 rest
  | st, .listener (.acceptErr k) :: rest =>
      if k = .WouldBlock then pollPhase now st rest
      else (st, some k)
  | st, .peerTok tok r w :: rest =>
      match getSlot st.peers (tok - 1) with
      | none => pollPhase now st rest
      | some p =>
          let p1 := { p with readyR := p.readyR || r, readyW := p.readyW || w }
          pollPhase now { st with peers := setSlot st.peers (tok - 1) (some p1) } rest

/-- `Host::process_internal`: scan all live peers, then handle the poll
notifications. A fatal scan error aborts before the poll phase; the events
pushed so far stay queued (the Rust code mutates `self.events` in place
before returning `Err`). -/
def processInternal (st : HostState) (now : Nat) (notes : List PollEvent) :
    HostState × Option IOErrorKind :=
  let r := scanGo st.timeout now 0 st.peers
  let st1 := { st with peers := r.peers, events := st.events ++ r.events }
  match r.fatal with
  | some k => (st1, some k)
  | none => pollPhase now st1 notes

/-- What one `Host::process` call produces: a delivered event together with
the result of the `&mut self.peers[event.peer]` lookup (`none` means the
slot is vacant and the slab `Index` impl panics), no event, or a
propagated fatal error. -/
inductive ProcessResult
  | event (e : HostEvent) (peerRef : Option Shared)
  | noEvent
  | fatal (k : IOErrorKind)
deriving DecidableEq, Repr

/-- `Host::process` (lines 213–223): deliver a queued event if any —
without doing any I/O — otherwise run one `process_internal` tick. -/
def processM (st : HostState) (now : Nat) (notes : List PollEvent) :
    ProcessResult × HostState :=
  match pop_event st with
  | (some e, st1) => (.event e (getSlot st1.peers e.peer), st1)
  | (none, st1) =>
      match processInternal st1 now notes with
      | (st2, some k) => (.fatal k, st2)
      | (st2, none) => (.noEvent, st2)

/-- `Host::process_blocking` (lines 226–237): loop `pop_event` /
`process_internal` until an event is produced or an error propagates. The
fuel bounds the number of iterations (the Rust loop is unbounded); fuel
exhaustion reports `noEvent`. -/
def processBlocking : Nat → HostState → Nat → List PollEvent → ProcessResult × HostState
  | 0, st, _, _ => (.noEvent, st)
  | fuel + 1, st, now, notes =>
      match pop_event st with
      | (some e, st1) => (.event e (getSlot st1.peers e.peer), st1)
      | (none, st1) =>
          match processInternal st1 now notes with
          | (st2, some k) => (.fatal k, st2)
          | (st2, none) => processBlocking fuel st2 now notes

/-- The number of occupied slots, `self.peers.len()` on the slab. -/
def countOccupied (peers : List (Option Shared)) : Nat :=
  (peers.filterMap id).length

/-- The loop of `Host::broadcast` (lines 104–116): `remaining` counts down
over the occupied slots; the last occupied slot receives the packet by
move (`peer.send(packet); return`), every earlier one a clone — every
*occupied* slot is sent to, with no `connected()` filter. -/
def broadcastGo (packet : Packet) : Nat → List (Option Shared) → List (Option Shared)
  | _, [] => []
  | remaining, none :: rest => none :: broadcastGo packet remaining rest
  | remaining, some p :: rest =>
      if remaining - 1 = 0 then some (Shared.send p packet) :: rest
      else some (Shared.send p packet) :: broadcastGo packet (remaining - 1) rest

/-- `Host::broadcast`. -/
def Host.broadcast (st : HostState) (packet : Packet) : HostState :=
  { st with peers := broadcastGo packet (countOccupied st.peers) st.peers }

/-- A connected peer whose socket delivers one valid frame (payload `[65]`)
immediately followed by a zero length header, all in a single read. -/
def zeroHeaderPeer : Shared :=
  { basePeer with readyR := true, rInput := [.ok [0, 0, 0, 1, 65, 0, 0, 0, 0]] }

/-- The single-peer reactor that receives `zeroHeaderPeer`'s bytes. -/
def bugHost : HostState := ⟨[], [some zeroHeaderPeer], none, 100⟩

/-- A failed-outbound placeholder peer: no socket attached. -/
def placeholderPeer : Shared := Peer.new false .Waiting 0

/-- A host holding one connected peer and one non-connected placeholder. -/
def twoPeerHost : HostState := ⟨[], [some basePeer, some placeholderPeer], none, 100⟩

/-- A peer whose socket fails with `ConnectionReset` on the next read. -/
def resetPeer : Shared := { basePeer with readyR := true, rInput := [.err .ConnectionReset] }

/-- A peer whose socket fails with an unclassified error on the next read. -/
def fatalPeer : Shared := { basePeer with readyR := true, rInput := [.err .Other] }

/-- A peer that receives one well-formed frame (payload `[66]`) and then
`WouldBlock`. -/
def recvPeer : Shared :=
  { basePeer with readyR := true, rInput := [.ok [0, 0, 0, 1, 66], .err .WouldBlock] }

/-- A host with one occupied slot and a queued Disconnect for it. -/
def hostW : HostState := ⟨[⟨.Disconnect, 0⟩], [some basePeer], none, 100⟩

theorem toBe32_fromBe32 (n : Nat) (h : n < 2 ^ 32) :
    fromBe32 (n / 16777216 % 256) (n / 65536 % 256) (n / 256 % 256) (n % 256) = n := by
  have h' : n < 4294967296 := by
    calc n < 2 ^ 32 := h
    _ = 4294967296 := by norm_num
  simp only [fromBe32]
  omega

theorem feedChunkIncoming_append (a b : List Nat) (st : Option ReadState)
    (inbox : List Packet) :
    feedChunkIncoming st (a ++ b) inbox =
      match feedChunkIncoming st a inbox with
      | (st2, inbox2, none) => feedChunkIncoming st2 b inbox2
      | r => r := by
  induction a generalizing st inbox with
  | nil => simp [feedChunkIncoming]
  | cons e rest ih =>
      simp only [List.cons_append, feedChunkIncoming]
      cases readStep st e with
      | error k => simp
      | ok r =>
          obtain ⟨st2, po⟩ := r
          cases po <;> simp [ih]

theorem feedChunks_eq_join (cs : List (List Nat)) (st : Option ReadState)
    (inbox : List Packet) :
    feedChunks st cs inbox = feedChunkIncoming st cs.flatten inbox := by
  induction cs generalizing st inbox with
  | nil => simp [feedChunks, feedChunkIncoming]
  | cons c cs ih =>
      simp only [List.flatten_cons, feedChunks, feedChunkIncoming_append]
      rcases h : feedChunkIncoming st c inbox with ⟨st2, inbox2, e⟩
      cases e <;> simp [ih, h]

theorem feed_packet (k : List Nat) (buf : List Nat) (size : Nat)
    (inbox : List Packet) (rest : List Nat)
    (hk : 0 < k.length) (hsz : buf.length + k.length = size) :
    feedChunkIncoming (some (.Packet buf size)) (k ++ rest) inbox =
      feedChunkIncoming none rest (inbox ++ [buf ++ k]) := by
  induction k generalizing buf inbox with
  | nil => simp at hk
  | cons x xs ih =>
      simp only [List.cons_append, feedChunkIncoming, readStep]
      rcases xs with _ | ⟨y, ys⟩
      · have hlen : (buf ++ [x]).length = size := by
          simp at hsz ⊢
          omega
        rw [if_pos hlen]
        simp
      · have hlen : ¬((buf ++ [x]).length = size) := by
          simp at hsz ⊢
          omega
        rw [if_neg hlen]
        simp only
        have := ih (buf ++ [x]) inbox (by simp) (by simp at hsz ⊢; omega)
        simpa using this

theorem feed_encode (p : Packet) (rest : List Nat) (inbox : List Packet)
    (hne : p ≠ []) (hlt : p.length < 2 ^ 32) :
    feedChunkIncoming none (encodePacket p ++ rest) inbox =
      feedChunkIncoming none rest (inbox ++ [p]) := by
  have hmod : p.length % 2 ^ 32 = p.length := Nat.mod_eq_of_lt hlt
  have hpos : 0 < p.length := List.length_pos.mpr hne
  simp only [encodePacket, hmod, toBe32, List.cons_append, List.nil_append,
    feedChunkIncoming, readStep]
  rw [toBe32_fromBe32 p.length hlt]
  rw [if_neg (by omega)]
  simp only
  have := feed_packet p [] p.length inbox rest hpos (by simp)
  simpa using this

theorem feed_stream (ps : List Packet) (inbox : List Packet)
    (h : ∀ p ∈ ps, p ≠ [] ∧ p.length < 2 ^ 32) :
    feedChunkIncoming none ((ps.map encodePacket).flatten) inbox =
      (none, inbox ++ ps, none) := by
  induction ps generalizing inbox with
  | nil => simp [feedChunkIncoming]
  | cons p ps ih =>
      obtain ⟨hne, hlt⟩ := h p (by simp)
      simp only [List.map_cons, List.flatten_cons]
      rw [feed_encode p _ inbox hne hlt]
      rw [ih _ (fun q hq => h q (by simp [hq]))]
      simp

/-- Claim C1 (amended): for every sequence of non-empty payloads, each
shorter than `2 ^ 32` bytes, framing each payload (4-byte big-endian length
header prepended to the payload, as `Shared::writable` builds it) and
feeding the resulting byte stream to the read automaton of
`Shared::readable`, split at arbitrary byte boundaries (any chunking of the
stream, including one byte per read), reproduces exactly the original
payloads in the original order in the inbound queue, leaving the automaton
in its initial state with no error. -/
theorem framing_roundtrip (ps : List Packet) (chunks : List (List Nat))
    (h : ∀ p ∈ ps, p ≠ [] ∧ p.length < 2 ^ 32)
    (hchunks : chunks.flatten = (ps.map encodePacket).flatten) :
    feedChunks none chunks [] = (none, ps, none) := by
  rw [feedChunks_eq_join, hchunks, feed_stream ps [] h]
  simp

/-- Witness for `framing_roundtrip`: payloads `[[1], [2, 3]]` delivered one
byte per read. -/
theorem framing_roundtrip_witness :
    feedChunks none [[0], [0], [0], [1], [1], [0], [0], [0], [2], [2], [3]] [] =
      (none, [[1], [2, 3]], none) :=
  framing_roundtrip [[1], [2, 3]]
    [[0], [0], [0], [1], [1], [0], [0], [0], [2], [2], [3]]
    (by decide) (by decide)

/-- Counterexample to claim C1 as stated: a payload of exactly `2 ^ 32`
bytes is non-empty, but its length cast to `u32` is 0, so the frame header
encodes length 0 and the read automaton rejects the stream as malformed
instead of reproducing the payload. -/
theorem framing_roundtrip_cex :
    (List.replicate (2 ^ 32) 0 : Packet) ≠ [] ∧
      feedChunks none [encodePacket (List.replicate (2 ^ 32) 0)] [] =
        (none, [], some .InvalidData) := by
  constructor
  · intro h
    have hl := congrArg List.length h
    rw [List.length_replicate, List.length_nil] at hl
    exact absurd hl (by norm_num)
  · have h4 : toBe32 0 = [0, 0, 0, 0] := by norm_num [toBe32]
    have henc : encodePacket (List.replicate (2 ^ 32) 0) =
        0 :: 0 :: 0 :: 0 :: List.replicate (2 ^ 32) 0 := by
      show toBe32 ((List.replicate (2 ^ 32) (0 : Nat)).length % 2 ^ 32) ++
          List.replicate (2 ^ 32) 0 =
        0 :: 0 :: 0 :: 0 :: List.replicate (2 ^ 32) 0
      rw [List.length_replicate, Nat.mod_self, h4]
      rfl
    rw [henc]
    rfl

/-- Claim C3 is contradicted by the code: `Shared::writable` takes
`write_state` out and never stores it back, nor advances `done`. After the
transport accepts only 3 of the 5 frame bytes of payload `[65]`, the
automaton ends idle (`writeState = none`) with an empty queue — the
remaining 2 bytes are lost instead of staying in progress at offset 3;
after `WouldBlock` the frame is likewise dropped entirely (offset 0,
nothing written) instead of being preserved for the next notification. -/
theorem writable_drops_partial_frame :
    encodePacket [65] = [0, 0, 0, 1, 65] ∧
    Shared.writable shortWritePeer 7 =
      ({ shortWritePeer with outgoing := [], wInput := [], lastActivity := 7 }, none) ∧
    Shared.writable blockedWritePeer 7 =
      ({ blockedWritePeer with outgoing := [], wInput := [], readyW := false }, none) := by
  refine ⟨by decide, ?_, ?_⟩ <;> rfl

/-- Claim C8 is contradicted by the code: `Peer::send` (whose own doc
comment says sending on a disconnected peer "has no effect") pushes the
payload onto `outgoing_packets` unconditionally, so the outbound queue of a
disconnected peer grows instead of staying unchanged. -/
theorem send_on_disconnected_buffers :
    disconnectedPeer.connectionState = .Disconnected ∧
    disconnectedPeer.connected = false ∧
    Shared.send disconnectedPeer [1] = { disconnectedPeer with outgoing := [[1]] } ∧
    (Shared.send disconnectedPeer [1]).outgoing ≠ disconnectedPeer.outgoing := by
  refine ⟨rfl, rfl, rfl, by decide⟩

/-- Claim C2 is contradicted by the code: when `peer.process()` fails with
a recoverable error, `Host::process_internal` pushes the Disconnect and
then still drains `incoming_packets()`, so the packets completed before
the failure are pushed as Receive events *after* the Disconnect for the
same slot. Here the peer completes packet `[65]` and then hits a
zero-length header in one read: the event queue ends up
`[Disconnect 0, Receive [65] 0]`. -/
theorem receive_pushed_after_disconnect :
    scanGo 100 0 0 [some zeroHeaderPeer] =
      ⟨[some { zeroHeaderPeer with rInput := [], incoming := [] }],
        [⟨.Disconnect, 0⟩, ⟨.Receive [65], 0⟩], none⟩ := by
  decide

/-- Claim C10 is contradicted by the code, continuing the
`receive_pushed_after_disconnect` scenario through `Host::process`: the
first call scans and queues `[Disconnect 0, Receive [65] 0]`, the second
delivers the Disconnect (marking slot 0 for deferred removal), and the
third frees slot 0 and then delivers the Receive whose
`&mut self.peers[0]` lookup hits the freed slot — `getSlot` is `none`,
which in the Rust slab `Index` impl is a panic. -/
theorem freed_slot_lookup_panics :
    (processM bugHost 0 []).1 = .noEvent ∧
    (processM (processM bugHost 0 []).2 0 []).1 =
      .event ⟨.Disconnect, 0⟩ (some { zeroHeaderPeer with rInput := [], incoming := [] }) ∧
    (processM (processM (processM bugHost 0 []).2 0 []).2 0 []).1 =
      .event ⟨.Receive [65], 0⟩ none := by
  decide

/-- Claim C9 is contradicted by the code: `Host::broadcast` iterates the
raw slab (`for (_, peer) in &mut self.peers`), not the `connected()`
filtered iterator `Host::peers`, and `Peer::send` enqueues
unconditionally — so a non-connected placeholder's outbound queue also
receives the payload. -/
theorem broadcast_reaches_unconnected :
    placeholderPeer.connected = false ∧
    Host.broadcast twoPeerHost [7] =
      { twoPeerHost with peers :=
          [some { basePeer with outgoing := [[7]] },
            some { placeholderPeer with outgoing := [[7]] }] } := by
  decide

theorem getSlot_nil (j : Nat) : getSlot [] j = none := by
  simp [getSlot]

theorem getSlot_setSlot_nil_ne (i j : Nat) (v : Option Shared) (h : i ≠ j) :
    getSlot (setSlot [] i v) j = none := by
  induction i generalizing j with
  | zero =>
      cases j with
      | zero => exact absurd rfl h
      | succ j => simp [setSlot, getSlot]
  | succ n ih =>
      cases j with
      | zero => simp [setSlot, getSlot]
      | succ j =>
          simpa [setSlot, getSlot] using ih j (by omega)

theorem getSlot_setSlot_ne (peers : List (Option Shared)) (i j : Nat)
    (v : Option Shared) (h : i ≠ j) :
    getSlot (setSlot peers i v) j = getSlot peers j := by
  induction peers generalizing i j with
  | nil => rw [getSlot_setSlot_nil_ne i j v h, getSlot_nil]
  | cons o rest ih =>
      cases i with
      | zero =>
          cases j with
          | zero => exact absurd rfl h
          | succ j => simp [setSlot, getSlot]
      | succ n =>
          cases j with
          | zero => simp [setSlot, getSlot]
          | succ j => simpa [setSlot, getSlot] using ih n j (by omega)

theorem getSlot_vacantIdx (peers : List (Option Shared)) :
    getSlot peers (vacantIdx peers) = none := by
  induction peers with
  | nil => exact getSlot_nil 0
  | cons o rest ih =>
      cases o with
      | none => simp [vacantIdx, getSlot]
      | some p => simpa [vacantIdx, getSlot] using ih

theorem scanGo_cons_vacant (t now idx : Nat) (rest : List (Option Shared)) :
    scanGo t now idx (none :: rest) =
      ⟨none :: (scanGo t now (idx + 1) rest).peers,
        (scanGo t now (idx + 1) rest).events,
        (scanGo t now (idx + 1) rest).fatal⟩ := by
  simp [scanGo]

theorem scanGo_cons_timeout (t now idx : Nat) (peer : Shared)
    (rest : List (Option Shared)) (hc : t ≤ now - peer.lastActivity) :
    scanGo t now idx (some peer :: rest) =
      ⟨some peer :: (scanGo t now (idx + 1) rest).peers,
        ⟨.Disconnect, idx⟩ :: (scanGo t now (idx + 1) rest).events,
        (scanGo t now (idx + 1) rest).fatal⟩ := by
  simp [scanGo, hc]

theorem scanGo_cons_ok (t now idx : Nat) (peer p1 : Shared)
    (rest : List (Option Shared)) (hc : ¬ t ≤ now - peer.lastActivity)
    (hu : Shared.update peer now = (p1, none)) :
    scanGo t now idx (some peer :: rest) =
      ⟨some { p1 with incoming := [] } :: (scanGo t now (idx + 1) rest).peers,
        (p1.incoming.map fun pk => (⟨.Receive pk, idx⟩ : HostEvent)) ++
          (scanGo t now (idx + 1) rest).events,
        (scanGo t now (idx + 1) rest).fatal⟩ := by
  simp [scanGo, hc, hu]

theorem scanGo_cons_recoverable (t now idx : Nat) (peer p1 : Shared)
    (k : IOErrorKind) (rest : List (Option Shared))
    (hc : ¬ t ≤ now - peer.lastActivity)
    (hu : Shared.update peer now = (p1, some k)) (hr : recoverable k = true) :
    scanGo t now idx (some peer :: rest) =
      ⟨some { p1 with incoming := [] } :: (scanGo t now (idx + 1) rest).peers,
        ⟨.Disconnect, idx⟩ ::
          (p1.incoming.map fun pk => (⟨.Receive pk, idx⟩ : HostEvent)) ++
            (scanGo t now (idx + 1) rest).events,
        (scanGo t now (idx + 1) rest).fatal⟩ := by
  simp [scanGo, hc, hu, hr]

theorem scanGo_cons_fatal (t now idx : Nat) (peer p1 : Shared)
    (k : IOErrorKind) (rest : List (Option Shared))
    (hc : ¬ t ≤ now - peer.lastActivity)
    (hu : Shared.update peer now = (p1, some k)) (hr : recoverable k = false) :
    scanGo t now idx (some peer :: rest) = ⟨some p1 :: rest, [], some k⟩ := by
  simp [scanGo, hc, hu, hr]

theorem scanGo_occupancy (t now : Nat) (peers : List (Option Shared)) :
    ∀ idx i, ((scanGo t now idx peers).peers.getD i none).isSome =
      (peers.getD i none).isSome := by
  induction peers with
  | nil => intro idx i; rfl
  | cons o rest ih =>
      intro idx i
      cases o with
      | none =>
          cases i with
          | zero => simp [scanGo]
          | succ i => simpa [scanGo] using ih (idx + 1) i
      | some peer =>
          by_cases hc : t ≤ now - peer.lastActivity
          · cases i with
            | zero => simp [scanGo, hc]
            | succ i => simpa [scanGo, hc] using ih (idx + 1) i
          · rcases hu : Shared.update peer now with ⟨p1, e⟩
            cases e with
            | none =>
                cases i with
                | zero => simp [scanGo, hc, hu]
                | succ i => simpa [scanGo, hc, hu] using ih (idx + 1) i
            | some k =>
                by_cases hr : recoverable k
                · cases i with
                  | zero => simp [scanGo, hc, hu, hr]
                  | succ i => simpa [scanGo, hc, hu, hr] using ih (idx + 1) i
                · cases i with
                  | zero => simp [scanGo, hc, hu, hr]
                  | succ i => simp [scanGo, hc, hu, hr]

theorem scanGo_timeout_aux (t now : Nat) (peers : List (Option Shared)) :
    ∀ idx i (p : Shared),
      getSlot peers i = some p →
      t ≤ now - p.lastActivity →
      (scanGo t now idx peers).fatal = none →
      (⟨.Disconnect, idx + i⟩ : HostEvent) ∈ (scanGo t now idx peers).events ∧
        (scanGo t now idx peers).peers.getD i none = some p := by
  induction peers with
  | nil =>
      intro idx i p hget
      rw [getSlot_nil] at hget
      exact absurd hget (by simp)
  | cons o rest ih =>
      intro idx i p hget htime hfatal
      cases o with
      | none =>
          rw [scanGo_cons_vacant] at hfatal ⊢
          cases i with
          | zero => simp [getSlot] at hget
          | succ i =>
              have hget' : getSlot rest i = some p := by
                simpa [getSlot] using hget
              obtain ⟨hmem, hslot⟩ := ih (idx + 1) i p hget' htime hfatal
              have harith : idx + (i + 1) = (idx + 1) + i := by omega
              exact ⟨by rw [harith]; exact hmem, by simpa using hslot⟩
      | some peer =>
          cases i with
          | zero =>
              have hp : peer = p := by simpa [getSlot] using hget
              subst hp
              rw [scanGo_cons_timeout t now idx peer rest htime]
              exact ⟨by simp, by simp⟩
          | succ i =>
              have hget' : getSlot rest i = some p := by
                simpa [getSlot] using hget
              have harith : idx + (i + 1) = (idx + 1) + i := by omega
              by_cases hc : t ≤ now - peer.lastActivity
              · rw [scanGo_cons_timeout t now idx peer rest hc] at hfatal ⊢
                obtain ⟨hmem, hslot⟩ := ih (idx + 1) i p hget' htime hfatal
                refine ⟨?_, by simpa using hslot⟩
                rw [harith]
                exact List.mem_cons_of_mem _ hmem
              · rcases hu : Shared.update peer now with ⟨p1, e⟩
                cases e with
                | none =>
                    rw [scanGo_cons_ok t now idx peer p1 rest hc hu] at hfatal ⊢
                    obtain ⟨hmem, hslot⟩ := ih (idx + 1) i p hget' htime hfatal
                    refine ⟨?_, by simpa using hslot⟩
                    rw [harith]
                    exact List.mem_append_right _ hmem
                | some k =>
                    by_cases hr : recoverable k
                    · rw [scanGo_cons_recoverable t now idx peer p1 k rest hc hu hr] at hfatal ⊢
                      obtain ⟨hmem, hslot⟩ := ih (idx + 1) i p hget' htime hfatal
                      refine ⟨?_, by simpa using hslot⟩
                      rw [harith]
                      exact List.mem_cons_of_mem _ (List.mem_append_right _ hmem)
                    · rw [scanGo_cons_fatal t now idx peer p1 k rest hc hu
                        (by simpa using hr)] at hfatal
                      simp at hfatal

/-- Claim C7: during a tick's peer scan (one that is not aborted by a fatal
error), every live peer whose inactivity `now - last_activity` has reached
the configured timeout gets a Disconnect event enqueued for its slot, and
its state is left completely untouched — the `continue` skips both
`peer.process()` (so no I/O is attempted on it this tick) and the
`incoming_packets()` drain. -/
theorem timeout_eviction (t now : Nat) (peers : List (Option Shared)) (i : Nat)
    (p : Shared)
    (hget : getSlot peers i = some p)
    (htime : t ≤ now - p.lastActivity)
    (hfatal : (scanGo t now 0 peers).fatal = none) :
    (⟨.Disconnect, i⟩ : HostEvent) ∈ (scanGo t now 0 peers).events ∧
      (scanGo t now 0 peers).peers.getD i none = some p := by
  have h := scanGo_timeout_aux t now peers 0 i p hget htime hfatal
  simpa using h

/-- Witness for `timeout_eviction`: a host with one idle connected peer,
last active at time 0, scanned at time 10 with timeout 5. -/
theorem timeout_eviction_witness :
    (⟨.Disconnect, 0⟩ : HostEvent) ∈ (scanGo 5 10 0 [some basePeer]).events ∧
      (scanGo 5 10 0 [some basePeer]).peers.getD 0 none = some basePeer :=
  timeout_eviction 5 10 [some basePeer] 0 basePeer (by decide) (by decide) (by decide)

theorem scan_two_recoverable (t now : Nat) (p q p1 : Shared) (k : IOErrorKind)
    (h1 : now - p.lastActivity < t)
    (h2 : Shared.update p now = (p1, some k))
    (hk : recoverable k = true) :
    scanGo t now 0 [some p, some q] =
      ⟨some { p1 with incoming := [] } :: (scanGo t now 1 [some q]).peers,
        ⟨.Disconnect, 0⟩ ::
          (p1.incoming.map fun pk => (⟨.Receive pk, 0⟩ : HostEvent)) ++
            (scanGo t now 1 [some q]).events,
        (scanGo t now 1 [some q]).fatal⟩ := by
  have hc : ¬ t ≤ now - p.lastActivity := by omega
  rw [scanGo_cons_recoverable t now 0 p p1 k [some q] hc h2 hk]

/-- Claim C4: during a tick's peer scan, a `peer.process()` failure of a
recoverable kind (connection reset / aborted / refused, broken pipe, or
malformed frame, i.e. `InvalidData`) enqueues a Disconnect for that slot
and the scan continues — the result for the remaining peers, and whether
the tick is fatal at all, is exactly that of scanning them alone, so the
error never escapes the Host. Any other kind aborts the tick immediately:
the later peers are untouched, no event is produced for the failing peer,
and the error propagates out of `Host::process` and
`Host::process_blocking` to the caller. -/
theorem error_taxonomy (t now : Nat) (p q p1 : Shared) (k : IOErrorKind)
    (h1 : now - p.lastActivity < t)
    (h2 : Shared.update p now = (p1, some k)) :
    (recoverable k = true →
      scanGo t now 0 [some p, some q] =
        ⟨some { p1 with incoming := [] } :: (scanGo t now 1 [some q]).peers,
          ⟨.Disconnect, 0⟩ ::
            (p1.incoming.map fun pk => (⟨.Receive pk, 0⟩ : HostEvent)) ++
              (scanGo t now 1 [some q]).events,
          (scanGo t now 1 [some q]).fatal⟩) ∧
    (recoverable k = false →
      scanGo t now 0 [some p, some q] = ⟨[some p1, some q], [], some k⟩ ∧
      processM ⟨[], [some p, some q], none, t⟩ now [] =
        (.fatal k, ⟨[], [some p1, some q], none, t⟩) ∧
      ∀ fuel, processBlocking (fuel + 1) ⟨[], [some p, some q], none, t⟩ now [] =
        (.fatal k, ⟨[], [some p1, some q], none, t⟩)) := by
  have hc : ¬ t ≤ now - p.lastActivity := by omega
  constructor
  · intro hk
    exact scan_two_recoverable t now p q p1 k h1 h2 hk
  · intro hk
    have hscan : scanGo t now 0 [some p, some q] = ⟨[some p1, some q], [], some k⟩ :=
      scanGo_cons_fatal t now 0 p p1 k [some q] hc h2 hk
    refine ⟨hscan, ?_, ?_⟩
    · simp [processM, pop_event, processInternal, hscan]
    · intro fuel
      simp [processBlocking, pop_event, processInternal, hscan]

/-- Witness for `error_taxonomy`: a `ConnectionReset` peer is converted to
a Disconnect with the scan continuing over `basePeer`; an `Other`-kind
failure makes the whole `Host::process` call return the error. -/
theorem error_taxonomy_witness :
    scanGo 100 0 0 [some resetPeer, some basePeer] =
      ⟨some { resetPeer with rInput := [], incoming := [] } ::
          (scanGo 100 0 1 [some basePeer]).peers,
        ⟨.Disconnect, 0⟩ :: (scanGo 100 0 1 [some basePeer]).events,
        (scanGo 100 0 1 [some basePeer]).fatal⟩ ∧
    processM ⟨[], [some fatalPeer, some basePeer], none, 100⟩ 0 [] =
      (.fatal .Other, ⟨[], [some { fatalPeer with rInput := [] }, some basePeer], none, 100⟩) := by
  constructor
  · have h := (error_taxonomy 100 0 resetPeer basePeer { resetPeer with rInput := [] }
      .ConnectionReset (by decide) (by decide)).1 rfl
    simpa using h
  · exact ((error_taxonomy 100 0 fatalPeer basePeer { fatalPeer with rInput := [] }
      .Other (by decide) (by decide)).2 rfl).2.1

/-- Claim C5: a decoded 4-byte length header of value zero makes the read
automaton fail with `InvalidData` (the malformed-frame error), and at the
host level that failure yields a Disconnect event for that peer's slot
while every other peer's state and events are exactly those of a scan
without it (no effect on any other peer). -/
theorem zero_length_header (t now : Nat) (p q p1 : Shared) :
    (∀ a b c d, fromBe32 a b c d = 0 →
      readStep (some (.Size3 a b c)) d = .error .InvalidData) ∧
    (now - p.lastActivity < t →
      Shared.update p now = (p1, some .InvalidData) →
      scanGo t now 0 [some p, some q] =
        ⟨some { p1 with incoming := [] } :: (scanGo t now 1 [some q]).peers,
          ⟨.Disconnect, 0⟩ ::
            (p1.incoming.map fun pk => (⟨.Receive pk, 0⟩ : HostEvent)) ++
              (scanGo t now 1 [some q]).events,
          (scanGo t now 1 [some q]).fatal⟩) := by
  constructor
  · intro a b c d h0
    simp [readStep, h0]
  · intro h1 h2
    exact scan_two_recoverable t now p q p1 .InvalidData h1 h2 rfl

/-- Witness for `zero_length_header`: the all-zero header errors, and a
scan pairing `zeroHeaderPeer` with an unaffected receiving peer. -/
theorem zero_length_header_witness :
    readStep (some (.Size3 0 0 0)) 0 = .error .InvalidData ∧
    scanGo 100 0 0 [some zeroHeaderPeer, some recvPeer] =
      ⟨some { zeroHeaderPeer with rInput := [], incoming := [] } ::
          (scanGo 100 0 1 [some recvPeer]).peers,
        ⟨.Disconnect, 0⟩ :: (⟨.Receive [65], 0⟩ : HostEvent) ::
          (scanGo 100 0 1 [some recvPeer]).events,
        (scanGo 100 0 1 [some recvPeer]).fatal⟩ := by
  constructor
  · exact (zero_length_header 100 0 zeroHeaderPeer recvPeer
      { zeroHeaderPeer with rInput := [], incoming := [[65]] }).1 0 0 0 0 rfl
  · have h := (zero_length_header 100 0 zeroHeaderPeer recvPeer
      { zeroHeaderPeer with rInput := [], incoming := [[65]] }).2 (by decide) (by decide)
    simpa using h

/-- Claim C6: the deferred-removal discipline. In `pop_event`: when no
removal is deferred, no slot is freed; when one is, exactly that slot is
freed at the start of the call; a removal becomes deferred exactly when
the call returns a Disconnect, for that event's slot. Allocation
(`connect` and the accept path) targets the vacant entry — which is free —
and never overwrites an occupied slot; the peer scan never frees or fills
any slot. Together: a slot is freed only at the start of the call
following the one that delivered its Disconnect, and can only then be
reassigned. -/
theorem slot_reuse_safety (st : HostState) (s : Nat) (p peer : Shared)
    (alsoD : Bool) :
    (st.remove = none → ((pop_event st).2).peers = st.peers) ∧
    (∀ r, st.remove = some r → ((pop_event st).2).peers = setSlot st.peers r none) ∧
    (∀ e, (pop_event st).1 = some e →
      (((pop_event st).2).remove = some e.peer ↔ e.kind = .Disconnect)) ∧
    getSlot st.peers (vacantIdx st.peers) = none ∧
    (getSlot st.peers s = some p →
      getSlot (allocPeer st peer alsoD).1.peers s = some p) ∧
    (∀ t now, ((scanGo t now 0 st.peers).peers.getD s none).isSome =
      (getSlot st.peers s).isSome) := by
  refine ⟨?_, ?_, ?_, getSlot_vacantIdx st.peers, ?_, ?_⟩
  · intro h
    rcases he : st.events with _ | ⟨ev, rest⟩ <;> simp [pop_event, h, he]
  · intro r hr
    rcases he : st.events with _ | ⟨ev, rest⟩ <;> simp [pop_event, hr, he]
  · intro e hpe
    rcases hr : st.remove with _ | r <;>
      rcases he : st.events with _ | ⟨ev, rest⟩
    · simp [pop_event, hr, he] at hpe
    · have hev : ev = e := by simpa [pop_event, hr, he] using hpe
      subst hev
      by_cases hk : ev.kind = .Disconnect <;> simp [pop_event, hr, he, hk]
    · simp [pop_event, hr, he] at hpe
    · have hev : ev = e := by simpa [pop_event, hr, he] using hpe
      subst hev
      by_cases hk : ev.kind = .Disconnect <;> simp [pop_event, hr, he, hk]
  · intro h
    have hvac := getSlot_vacantIdx st.peers
    have hne : vacantIdx st.peers ≠ s := by
      intro heq
      rw [heq, h] at hvac
      exact absurd hvac (by simp)
    have := getSlot_setSlot_ne st.peers (vacantIdx st.peers) s (some peer) hne
    simpa [allocPeer, this] using h
  · intro t now
    exact scanGo_occupancy t now st.peers 0 s

/-- Witness for `slot_reuse_safety` at `hostW`. -/
theorem slot_reuse_safety_witness :
    ((pop_event hostW).2).peers = hostW.peers ∧
    getSlot hostW.peers (vacantIdx hostW.peers) = none ∧
    getSlot (allocPeer hostW basePeer false).1.peers 0 = some basePeer := by
  obtain ⟨h1, _, _, h4, h5, _⟩ := slot_reuse_safety hostW 0 basePeer basePeer false
  exact ⟨h1 rfl, h4, h5 (by decide)⟩

end Asnet
